import Mathlib

/-!
Verification of the NumCode v4 codec (src/numcode.py) against its
natural-language specification.

The development shallowly embeds the program:

* Python non-negative ints are Nat; Python decimal formatting of an int
  (str(n), f-strings) is modelled by natRepr, the base-10 digit string;
  Python int(s) on a digit string is modelled by strToNat.
* The per-language dictionaries, loaded from files at program start
  (out of scope per the spec), are passed as explicit lookup functions:
  an encode map String -> Option Nat and a decode map Nat -> Option String,
  wrapped in a per-language table String -> Option map, mirroring the
  dicts_encode / dicts_decode globals and the "lang not in dicts" check.
* A rendered 10x20 block of the PNG strip is modelled by its list of
  active (row, col) cells (pixel value 0 at (col-1, row-1) in the image);
  a strip is the list of its 10-pixel-wide blocks, left to right, so the
  image width is 10 * length.  read_cell tests cell membership.
* Python dicts with fixed literal keys (pos tables, LANG_CELLS, SUFFIXES,
  and their inverses) are modelled as total match functions or as
  association lists in the dict's insertion order, which is Python's
  iteration order used by the read-side scans.
-/

namespace NumCode

/-- Decimal digit to its character, as in Python str(): 5 to the char 5. -/
def digitChar (d : Nat) : Char := Char.ofNat (48 + d)

/-- Model of Python str(n) for a non-negative int n: most-significant-first
decimal digit string, with str(0) = "0". -/
def natRepr (n : Nat) : String :=
  if n = 0 then "0" else ((Nat.digits 10 n).reverse.map digitChar).asString

/-- Model of Python int(s) for a non-empty decimal digit string s. -/
def strToNat (cs : List Char) : Nat :=
  cs.foldl (fun a c => 10 * a + (c.toNat - 48)) 0

/-- The units-digit cell table of id_to_cells: pos with keys 9..1
(3x3 block, rows 14-16, cols 7-9, inverted spiral). -/
def posU (u : Nat) : Nat × Nat :=
  match u with
  | 9 => (14, 7) | 8 => (14, 8) | 7 => (14, 9)
  | 6 => (15, 7) | 5 => (15, 8) | 4 => (15, 9)
  | 3 => (16, 7) | 2 => (16, 8) | _ => (16, 9)

/-- The tens-digit cell of id_to_cells: low table for d <= 5, high table
for d >= 6 (only applied to d in 1..9). -/
def posD (d : Nat) : Nat × Nat :=
  if d ≤ 5 then
    match d with
    | 1 => (17, 6) | 2 => (16, 6) | 3 => (15, 6) | 4 => (14, 6) | _ => (13, 6)
  else
    match d with
    | 6 => (12, 6) | 7 => (12, 7) | 8 => (12, 8) | _ => (12, 9)

/-- The (place value, column) pairs of the hundreds-through-billions loop,
in source order. -/
def placeTable : List (Nat × Nat) :=
  [(100, 7), (1000, 8), (10000, 9), (100000, 6), (1000000, 5),
   (10000000, 4), (100000000, 3), (1000000000, 2)]

/-- id_to_cells from the source: active cells for a numeric ID, in append
order (units, tens, then the eight higher places). -/
def id_to_cells (number : Nat) : List (Nat × Nat) :=
  (if number % 10 > 0 then [posU (number % 10)] else []) ++
  (if number / 10 % 10 > 0 then [posD (number / 10 % 10)] else []) ++
  placeTable.flatMap (fun pc =>
    let digit := number / pc.1 % 10
    if digit > 0 then [(11 - (digit - 1), pc.2)] else [])

/-- read_cell from the source, on the cell-list model of a block:
a cell is active iff it is among the block's active cells. -/
def read_cell (cells : List (Nat × Nat)) (r c : Nat) : Bool :=
  (r, c) ∈ cells

/-- One probing loop of read_block: scan (value, row, col) table entries in
order and return the value of the first active cell, 0 when none matches. -/
def scanGroup (cells : List (Nat × Nat)) : List (Nat × Nat × Nat) → Nat
  | [] => 0
  | (v, r, c) :: rest => if read_cell cells r c then v else scanGroup cells rest

/-- The units probe table of read_block (pos_u, keys 9..1 in dict order). -/
def unitsTable : List (Nat × Nat × Nat) :=
  [(9, 14, 7), (8, 14, 8), (7, 14, 9), (6, 15, 7), (5, 15, 8), (4, 15, 9),
   (3, 16, 7), (2, 16, 8), (1, 16, 9)]

/-- The high-tens probe table of read_block (values 6..9). -/
def tensHighTable : List (Nat × Nat × Nat) :=
  [(6, 12, 6), (7, 12, 7), (8, 12, 8), (9, 12, 9)]

/-- The low-tens probe table of read_block (values 1..5). -/
def tensLowTable : List (Nat × Nat × Nat) :=
  [(1, 17, 6), (2, 16, 6), (3, 15, 6), (4, 14, 6), (5, 13, 6)]

/-- The inner digit loop of read_block for one (place, col) pair: probe
v = 1..9 at row 11-(v-1), skipping rows >= 12 when place = 100000, and
return the first v whose cell is active, 0 when none is. -/
def scanPlace (cells : List (Nat × Nat)) (place col : Nat) : List Nat → Nat
  | [] => 0
  | v :: vs =>
    let row := 11 - (v - 1)
    if place = 100000 ∧ 12 ≤ row then scanPlace cells place col vs
    else if read_cell cells row col then v
    else scanPlace cells place col vs

/-- SUFFIXES_INV in dict insertion order: cell to tag letter. -/
def suffixInvTable : List ((Nat × Nat) × Char) :=
  [((13, 7), 's'), ((13, 8), 'r'), ((13, 9), 'n')]

/-- The suffix probe loop of read_block: first active suffix cell wins,
default tag letter b. -/
def scanSuffixCells (cells : List (Nat × Nat)) : List ((Nat × Nat) × Char) → Char
  | [] => 'b'
  | (rc, s) :: rest => if read_cell cells rc.1 rc.2 then s else scanSuffixCells cells rest

/-- The tens part of read_block: probe the high table (6..9) first and use
its value when a cell matched, otherwise probe the low table (1..5). -/
def readTens (cells : List (Nat × Nat)) : Nat :=
  let tensHigh := scanGroup cells tensHighTable
  if tensHigh ≠ 0 then tensHigh else scanGroup cells tensLowTable

/-- read_block from the source, on the cell-list model of one block:
accumulate units + tens*10 + each place digit * place, and the tag letter. -/
def read_block (cells : List (Nat × Nat)) : Nat × Char :=
  let placeSum := placeTable.foldl
    (fun acc pc => acc + scanPlace cells pc.1 pc.2 [1, 2, 3, 4, 5, 6, 7, 8, 9] * pc.1) 0
  (scanGroup cells unitsTable + readTens cells * 10 + placeSum,
   scanSuffixCells cells suffixInvTable)

/-- The apostrophe character, present in the tokenizer letter classes. -/
def apoChar : Char := Char.ofNat 39

/-- The newline character (relevant to the end anchor of re.match). -/
def nlChar : Char := Char.ofNat 10

/-- The Latin letter class of the default tokenizer branch, from the regex
character class with ranges a-z, A-Z, U+00E0-U+024F, U+00C0-U+024F and
the apostrophe. -/
def latinLetterClass (c : Char) : Bool :=
  (decide (97 ≤ c.toNat) && decide (c.toNat ≤ 122)) ||
  (decide (65 ≤ c.toNat) && decide (c.toNat ≤ 90)) ||
  (decide (0xe0 ≤ c.toNat) && decide (c.toNat ≤ 0x24f)) ||
  (decide (0xc0 ≤ c.toNat) && decide (c.toNat ≤ 0x24f)) ||
  c = apoChar

/-- The Arabic script class of the Arabic tokenizer branch
(U+0600-U+06FF and U+0750-U+077F). -/
def arabicClass (c : Char) : Bool :=
  (decide (0x600 ≤ c.toNat) && decide (c.toNat ≤ 0x6ff)) ||
  (decide (0x750 ≤ c.toNat) && decide (c.toNat ≤ 0x77f))

/-- The Latin-with-apostrophe class of the Arabic tokenizer branch. -/
def latinApClass (c : Char) : Bool :=
  (decide (97 ≤ c.toNat) && decide (c.toNat ≤ 122)) ||
  (decide (65 ≤ c.toNat) && decide (c.toNat ≤ 90)) ||
  c = apoChar

/-- The decimal digit class of the tokenizer regexes. -/
def digitClass (c : Char) : Bool := decide (48 ≤ c.toNat) && decide (c.toNat ≤ 57)

/-- The single-character punctuation class of the tokenizer regexes. -/
def punctClass (c : Char) : Bool :=
  c ∈ ['.', ',', ';', ':', '!', '?', '(', ')', '"', apoChar, '-']

/-- Model of re.findall for the tokenizer patterns: at each position try the
greedy one-or-more run alternatives in order, then the single punctuation
alternative, else advance one character.  The fuel argument is the input
length; every step consumes at least one character, so it never runs out. -/
def reFindAll (alts : List (Char → Bool)) (punct : Char → Bool) :
    Nat → List Char → List (List Char)
  | 0, _ => []
  | _, [] => []
  | fuel + 1, c :: cs =>
    match alts.find? (fun p => p c) with
    | some p => (c :: cs.takeWhile p) :: reFindAll alts punct fuel (cs.dropWhile p)
    | none =>
      if punct c then [c] :: reFindAll alts punct fuel cs
      else reFindAll alts punct fuel cs

/-- Model of Python str.lower per character, exact on ASCII and the
Latin-1 letters that the tokenizer classes admit. -/
def pyLowerChar (c : Char) : Char :=
  if 65 ≤ c.toNat ∧ c.toNat ≤ 90 then Char.ofNat (c.toNat + 32)
  else if 0xc0 ≤ c.toNat ∧ c.toNat ≤ 0xde ∧ c.toNat ≠ 0xd7 then Char.ofNat (c.toNat + 32)
  else c

/-- Model of Python str.lower on a string. -/
def pyLower (s : String) : String := ⟨s.data.map pyLowerChar⟩

/-- Model of Python str.upper per character, exact on ASCII and the
Latin-1 letters used by the sentence-capitalization pattern. -/
def pyUpperChar (c : Char) : Char :=
  if 97 ≤ c.toNat ∧ c.toNat ≤ 122 then Char.ofNat (c.toNat - 32)
  else if 0xe0 ≤ c.toNat ∧ c.toNat ≤ 0xfe ∧ c.toNat ≠ 0xf7 then Char.ofNat (c.toNat - 32)
  else c

/-- tokenize from the source: Chinese splits every non-space character,
Arabic scans script/digit/Latin runs or single punctuation, every other
language lowercases first and scans Latin/digit runs or single punctuation. -/
def tokenize (text lang : String) : List String :=
  if lang = "zh" then (text.data.filter (fun c => c ≠ ' ')).map String.singleton
  else if lang = "ar" then
    (reFindAll [arabicClass, digitClass, latinApClass] punctClass
      text.data.length text.data).map List.asString
  else
    ((reFindAll [latinLetterClass, digitClass] punctClass
      (pyLower text).data.length (pyLower text).data).map List.asString)

/-- Model of re.match applied to the anchored pattern of one-or-more digits:
it succeeds on a non-empty digit run, optionally followed by one final
newline (the end anchor matches just before a trailing newline). -/
def reDigitsFull (t : String) : Bool :=
  let cs := t.data
  let core := if cs.getLast? = some nlChar then cs.dropLast else cs
  decide (core ≠ []) && core.all Char.isDigit

/-- Phase 1 of encode for one raw token: digit runs become the token plus
tag letter n; otherwise the lowercased token (except Chinese), then the
exact token, is looked up and becomes its ID plus tag letter b; an
unmatched token yields none (it is recorded as not found). -/
def item1 (enc : String → Option Nat) (lang t : String) : Option String :=
  if reDigitsFull t then some (t ++ "n")
  else
    let tl := if lang ≠ "zh" then pyLower t else t
    match enc tl with
    | some tid => some (natRepr tid ++ "b")
    | none =>
      match enc t with
      | some tid => some (natRepr tid ++ "b")
      | none => none

/-- Phase 1 of encode over the token list: the raw item list in order and
the not-found token list in order. -/
def phase1 (enc : String → Option Nat) (lang : String) :
    List String → List String × List String
  | [] => ([], [])
  | t :: ts =>
    let rest := phase1 enc lang ts
    match item1 enc lang t with
    | some s => (s :: rest.1, rest.2)
    | none => (rest.1, t :: rest.2)

/-- The length of the run of items equal to x at the head of the list
(the inner while loop of the compression phase counts 1 + this). -/
def countRun (x : String) : List String → Nat
  | [] => 0
  | y :: ys => if y = x then countRun x ys + 1 else 0

/-- Phase 2 of encode: collapse every maximal run of k identical adjacent
items, k at least 2, into the item followed by the repeat item k plus
tag letter r. -/
def rle : List String → List String
  | [] => []
  | x :: xs =>
    let c := countRun x xs
    x :: ((if c + 1 > 1 then [natRepr (c + 1) ++ "r"] else []) ++ rle (xs.drop c))
termination_by l => l.length
decreasing_by
  rw [List.length_drop, List.length_cons]
  omega

/-- encode applied to an already-tokenized input: phase 1 lookup followed
by phase 2 repetition compression. -/
def encode_tokens (enc : String → Option Nat) (lang : String)
    (tokens : List String) : List String :=
  rle (phase1 enc lang tokens).1

/-- encode from the source: empty result when the language has no
dictionary, otherwise tokenize, look up, compress. -/
def encode (dicts : String → Option (String → Option Nat)) (lang text : String) :
    List String :=
  match dicts lang with
  | none => []
  | some enc => encode_tokens enc lang (tokenize text lang)

/-- The raw (phase 1, uncompressed) item sequence produced inside encode. -/
def encodeRaw (dicts : String → Option (String → Option Nat)) (lang text : String) :
    List String :=
  match dicts lang with
  | none => []
  | some enc => (phase1 enc lang (tokenize text lang)).1

/-- The decoder tag letters scanned by the per-character loop of decode,
matched exactly (the loop tests membership in the 4-letter string bnsr). -/
def tagChars : List Char := ['b', 'n', 's', 'r']

/-- The per-item scan of decode: digit characters are concatenated in order
into the numeric string; each tag letter overwrites the suffix, so the last
one wins; every other character is ignored. -/
def parseItem (token : String) : String × Option Char :=
  let p := token.data.foldl
    (fun (acc : List Char × Option Char) ch =>
      if ch.isDigit then (acc.1 ++ [ch], acc.2)
      else if ch ∈ tagChars then (acc.1, some ch)
      else acc)
    ([], none)
  (⟨p.1⟩, p.2)

/-- The loop body of decode for one wire item, acting on the accumulated
word list: items without digits are skipped; tag n appends the decimal
number, tag r appends count-1 copies of the last word when one exists,
tag s is skipped, and tag b or no tag looks the ID up, appending the
placeholder word on failure. -/
def decodeStep (dec : Nat → Option String) (words : List String)
    (token : String) : List String :=
  let ps := parseItem token
  if ps.1 = "" then words
  else
    let tid := strToNat ps.1.data
    if ps.2 = some 'n' then words ++ [natRepr tid]
    else if ps.2 = some 'r' then
      match words.getLast? with
      | some lastw => words ++ List.replicate (tid - 1) lastw
      | none => words
    else if ps.2 = some 's' then words
    else
      match dec tid with
      | some w => words ++ [w]
      | none => words ++ ["[?" ++ natRepr tid ++ "]"]

/-- The word list accumulated by decode over a wire item list. -/
def decodeWords (dec : Nat → Option String) (tokens : List String) : List String :=
  tokens.foldl (decodeStep dec) []

/-- Helper for the model of Python str.split with no argument: split on
whitespace runs, producing no empty pieces; acc holds the current piece
reversed. -/
def splitWsAux : List Char → List Char → List (List Char)
  | [], acc => if acc = [] then [] else [acc.reverse]
  | c :: cs, acc =>
    if c.isWhitespace then
      if acc = [] then splitWsAux cs []
      else acc.reverse :: splitWsAux cs []
    else splitWsAux cs (c :: acc)

/-- Model of Python str.split with no argument. -/
def pySplit (s : String) : List String := (splitWsAux s.data []).map List.asString

/-- PUNCT_ATTACH_RIGHT from the source, as the words it contains. -/
def punctAttachRight : List String :=
  [".", ",", ";", ":", "!", "?", ")", "\"", String.singleton apoChar, "-"]

/-- Whether the last part is non-empty and ends in an open parenthesis
(the third branch of the spacing loop of decode). -/
def lastEndsOpenParen (parts : List String) : Bool :=
  match parts.getLast? with
  | some p => decide (p ≠ "") && decide (p.data.getLast? = some '(')
  | none => false

/-- One iteration of the spacing loop of decode: the first word, an
attach-right punctuation word, or a word after an open parenthesis is
appended bare, every other word with a single leading space. -/
def partStep (parts : List String) (w : String) : List String :=
  if parts = [] then [w]
  else if w ∈ punctAttachRight then parts ++ [w]
  else if lastEndsOpenParen parts then parts ++ [w]
  else parts ++ [" " ++ w]

/-- The spacing loop of decode over the decoded words. -/
def buildParts (words : List String) : List String := words.foldl partStep []

/-- The letter class of the sentence-capitalization pattern of decode:
a-z and the listed accented Latin letters. -/
def sentenceLetterClass (c : Char) : Bool :=
  (decide (97 ≤ c.toNat) && decide (c.toNat ≤ 122)) ||
  c ∈ ['á', 'é', 'í', 'ó', 'ú', 'à', 'è', 'ì', 'ò', 'ù',
       'â', 'ê', 'î', 'ô', 'û', 'ä', 'ë', 'ï', 'ö', 'ü', 'ç']

/-- Model of the re.sub sentence-capitalization pass of decode: after a
sentence-terminal mark followed by one-or-more whitespace and a matching
letter, the whole match is replaced by the mark, a single space and the
uppercased letter; scanning resumes after the match. -/
def capSub : List Char → List Char
  | [] => []
  | c :: cs =>
    if c = '.' ∨ c = '!' ∨ c = '?' then
      match h : cs.drop (cs.takeWhile Char.isWhitespace).length with
      | r :: rs =>
        if (cs.takeWhile Char.isWhitespace) ≠ [] ∧ sentenceLetterClass r then
          c :: ' ' :: pyUpperChar r :: capSub rs
        else c :: capSub cs
      | [] => c :: capSub cs
    else c :: capSub cs
termination_by l => l.length
decreasing_by
  all_goals simp only [List.length_cons]
  · have hlen := congrArg List.length h
    rw [List.length_drop] at hlen
    simp only [List.length_cons] at hlen
    omega
  · omega
  · omega
  · omega

/-- The final casing pass of decode: uppercase the first character, then
apply the sentence-capitalization substitution. -/
def capitalizeText (s : String) : String :=
  match s.data with
  | [] => ""
  | c :: cs => ⟨capSub (pyUpperChar c :: cs)⟩

/-- decode from the source: empty result when the language has no
dictionary; otherwise parse the whitespace-split items, accumulate words,
and reconstruct text (Chinese concatenates without separators; the others
get spacing and sentence capitalization). -/
def decode (dicts : String → Option (Nat → Option String)) (lang s : String) :
    String :=
  match dicts lang with
  | none => ""
  | some dec =>
    let words := decodeWords dec (pySplit s)
    if lang = "zh" then String.join words
    else if words = [] then ""
    else capitalizeText (String.join (buildParts words))

/-- LANG_CELLS from the source, in dict insertion order. -/
def LANG_CELLS : List (String × Nat × Nat) :=
  [("ar", 1, 5), ("zh", 1, 6), ("fr", 1, 7), ("pt", 1, 8), ("es", 1, 9), ("eng", 1, 10)]

/-- DATA_TYPES from the source, in dict insertion order. -/
def DATA_TYPES : List (String × Nat × Nat) :=
  [("bin", 18, 6), ("enc", 18, 7), ("so", 18, 8), ("im", 18, 9)]

/-- Dict lookup in one of the fixed header tables. -/
def lookupCell (tbl : List (String × Nat × Nat)) (k : String) : Option (Nat × Nat) :=
  (tbl.find? (fun e => e.1 = k)).map (fun e => e.2)

/-- SUFFIXES from the source: tag letter to marker cell. -/
def SUFFIXES (s : Char) : Option (Nat × Nat) :=
  if s = 's' then some (13, 7)
  else if s = 'r' then some (13, 8)
  else if s = 'n' then some (13, 9)
  else none

/-- The suffix scan of create_strip over one token: the last character
among snrSNR, lowercased, wins. -/
def stripSuffixScan (token : String) : Option Char :=
  token.data.foldl
    (fun acc ch => if ch ∈ ['s', 'n', 'r', 'S', 'N', 'R'] then some ch.toLower else acc)
    none

/-- One data block of create_strip: a token without digits leaves its block
blank; otherwise the digit characters form the value, rendered through
id_to_cells, plus the marker cell of the scanned suffix, restricted to
in-range cells. -/
def renderBlock (token : String) : List (Nat × Nat) :=
  let numStr := token.data.filter Char.isDigit
  if numStr = [] then []
  else
    let cells := id_to_cells (strToNat numStr) ++
      (match stripSuffixScan token with
       | some sch =>
         match SUFFIXES sch with
         | some rc => [rc]
         | none => []
       | none => [])
    cells.filter (fun rc =>
      decide (1 ≤ rc.1) && decide (rc.1 ≤ 20) && decide (1 ≤ rc.2) && decide (rc.2 ≤ 10))

/-- create_strip from the source, on the block-list model of the image:
an optional header block holding the language and data-type cells,
followed by one rendered block per token.  The Python function returns
the number of blocks, the length of this list. -/
def create_strip (token_list : List String) (lang data_type : Option String) :
    List (List (Nat × Nat)) :=
  let header :=
    (match lang with
     | some l =>
       match lookupCell LANG_CELLS l with
       | some rc => [rc]
       | none => []
     | none => []) ++
    (match data_type with
     | some d =>
       match lookupCell DATA_TYPES d with
       | some rc => [rc]
       | none => []
     | none => [])
  (if lang.isSome || data_type.isSome then [header] else []) ++
  token_list.map renderBlock

/-- The scan of read_header over one inverse header table, in dict
insertion order: first active cell wins. -/
def scanHeaderTable (cells : List (Nat × Nat)) : List (String × Nat × Nat) → Option String
  | [] => none
  | (k, r, c) :: rest => if read_cell cells r c then some k else scanHeaderTable cells rest

/-- read_header from the source: the language and data type read from the
first block. -/
def read_header (cells : List (Nat × Nat)) : Option String × Option String :=
  (scanHeaderTable cells LANG_CELLS, scanHeaderTable cells DATA_TYPES)

/-- The wire item printed by read_strip for one data block. -/
def blockItem (cells : List (Nat × Nat)) : String :=
  natRepr (read_block cells).1 ++ String.singleton (read_block cells).2

/-- read_strip from the source, on the block-list model: an empty strip
reads as nothing; otherwise the header is read from block 0 and consumed
exactly when it yields a language or data type, and the remaining blocks
are read and joined with single spaces. -/
def read_strip (blocks : List (List (Nat × Nat))) :
    Option String × Option String × String :=
  match blocks with
  | [] => (none, none, "")
  | b0 :: _ =>
    let hd := read_header b0
    let start := if hd.1.isSome || hd.2.isSome then 1 else 0
    (hd.1, hd.2, String.intercalate " " ((blocks.drop start).map blockItem))

/-- Whether a wire item is a repeat item, that is, its last character is
the tag letter r (phase 1 items end in b or n, repeat items in r). -/
def isRepItem (s : String) : Bool := s.data.getLast? = some 'r'

/-- Expansion of one wire item at the item level, mirroring the repeat
semantics of decode: a repeat item appends count-1 copies of the last
item, any other item appends itself. -/
def expandStep (acc : List String) (item : String) : List String :=
  if isRepItem item then
    match acc.getLast? with
    | some lastw => acc ++ List.replicate (strToNat (item.data.filter Char.isDigit) - 1) lastw
    | none => acc
  else acc ++ [item]

/-- Expansion of a compressed wire sequence back to the uncompressed item
sequence. -/
def expandRLE (items : List String) : List String := items.foldl expandStep []


/-- The Scenario A Lexicon: a Spanish dictionary mapping hola to ID 7,
as its encode-direction lookup. -/
def esLex : String → Option Nat := fun s => if s = "hola" then some 7 else none

/-- The Scenario A Lexicon, decode direction. -/
def esLexInv : Nat → Option String := fun n => if n = 7 then some "hola" else none

/-- A per-language encode dictionary table holding only Spanish. -/
def encDictsA : String → Option (String → Option Nat) :=
  fun l => if l = "es" then some esLex else none

/-- A per-language decode dictionary table holding only Spanish. -/
def decDictsA : String → Option (Nat → Option String) :=
  fun l => if l = "es" then some esLexInv else none

/-- A decode map with ID 5 bound to the word five, for tag-letter tests. -/
def dec5 : Nat → Option String := fun n => if n = 5 then some "five" else none

lemma scanUnits_spec (cells : List (Nat × Nat)) (u : Nat) (hu : u < 10)
    (hmem : ∀ r c, 14 ≤ r → r ≤ 16 → 7 ≤ c → c ≤ 9 →
      (read_cell cells r c = true ↔ (u > 0 ∧ (r, c) = posU u))) :
    scanGroup cells unitsTable = u := by
  interval_cases u <;> simp [unitsTable, scanGroup, hmem, posU]

lemma readTens_spec (cells : List (Nat × Nat)) (d : Nat) (hd : d < 10)
    (hmem : ∀ r c, 12 ≤ r → (c = 6 ∨ r = 12) →
      (read_cell cells r c = true ↔ (d > 0 ∧ (r, c) = posD d))) :
    readTens cells = d := by
  interval_cases d <;>
    simp [readTens, tensHighTable, tensLowTable, scanGroup, hmem, posD]

lemma scanPlace_spec (cells : List (Nat × Nat)) (place col digit : Nat)
    (hd : digit < 10)
    (hmem : ∀ r, 3 ≤ r → r ≤ 11 →
      (read_cell cells r col = true ↔ (digit > 0 ∧ r = 11 - (digit - 1)))) :
    scanPlace cells place col [1, 2, 3, 4, 5, 6, 7, 8, 9] = digit := by
  interval_cases digit <;> simp [scanPlace, hmem]

lemma mem_id_to_cells (v r c : Nat) :
    (r, c) ∈ id_to_cells v ↔
      (v % 10 > 0 ∧ (r, c) = posU (v % 10)) ∨
      (v / 10 % 10 > 0 ∧ (r, c) = posD (v / 10 % 10)) ∨
      (∃ pc ∈ placeTable, v / pc.1 % 10 > 0 ∧
        r = 11 - (v / pc.1 % 10 - 1) ∧ c = pc.2) := by
  simp only [id_to_cells, List.mem_append, List.mem_flatMap]
  constructor
  · rintro ((h | h) | h)
    · left
      split at h <;> simp_all
    · right; left
      split at h <;> simp_all
    · right; right
      obtain ⟨pc, hpc, hm⟩ := h
      refine ⟨pc, hpc, ?_⟩
      split at hm <;> simp_all
  · rintro (⟨h1, h2⟩ | ⟨h1, h2⟩ | ⟨pc, hpc, h1, h2, h3⟩)
    · left; left; simp [h1, h2]
    · left; right; simp [h1, h2]
    · right
      refine ⟨pc, hpc, ?_⟩
      simp [h1, h2, h3]

lemma posU_bounds (u : Nat) (h : u < 10) :
    14 ≤ (posU u).1 ∧ (posU u).1 ≤ 16 ∧ 7 ≤ (posU u).2 ∧ (posU u).2 ≤ 9 := by
  interval_cases u <;> decide

lemma posD_bounds (d : Nat) (h : d < 10) :
    12 ≤ (posD d).1 ∧ ((posD d).2 = 6 ∨ (posD d).1 = 12) := by
  interval_cases d <;> decide

lemma placeTable_col_inj :
    ∀ pc ∈ placeTable, ∀ pc2 ∈ placeTable, pc.2 = pc2.2 → pc = pc2 := by
  decide

lemma read_block_append (v : Nat) (hv : v ≤ 9999999999)
    (extra : List (Nat × Nat))
    (hextra : ∀ p ∈ extra, p.1 = 13 ∧ 7 ≤ p.2 ∧ p.2 ≤ 9) :
    read_block (id_to_cells v ++ extra)
      = (v, scanSuffixCells extra suffixInvTable) := by
  have h10 : (0 : Nat) < 10 := by norm_num
  have hu10 : v % 10 < 10 := Nat.mod_lt _ h10
  have hd10 : ∀ w : Nat, v / w % 10 < 10 := fun w => Nat.mod_lt _ h10
  have hmemU : ∀ r c, 14 ≤ r → r ≤ 16 → 7 ≤ c → c ≤ 9 →
      (read_cell (id_to_cells v ++ extra) r c = true ↔
        (v % 10 > 0 ∧ (r, c) = posU (v % 10))) := by
    intro r c h1 h2 h3 h4
    simp only [read_cell, decide_eq_true_eq, List.mem_append]
    constructor
    · rintro (hin | hin)
      · rw [mem_id_to_cells] at hin
        rcases hin with h | ⟨hd, hpd⟩ | ⟨pc, hpc, hdig, hr, hc⟩
        · exact h
        · exfalso
          have hb := posD_bounds _ (hd10 10)
          rw [← hpd] at hb
          simp only at hb
          omega
        · omega
      · exact absurd (hextra _ hin).1 (by omega)
    · intro h
      exact Or.inl ((mem_id_to_cells v r c).mpr (Or.inl h))
  have hmemT : ∀ r c, 12 ≤ r → (c = 6 ∨ r = 12) →
      (read_cell (id_to_cells v ++ extra) r c = true ↔
        (v / 10 % 10 > 0 ∧ (r, c) = posD (v / 10 % 10))) := by
    intro r c h1 h2
    simp only [read_cell, decide_eq_true_eq, List.mem_append]
    constructor
    · rintro (hin | hin)
      · rw [mem_id_to_cells] at hin
        rcases hin with ⟨hu, hpu⟩ | h | ⟨pc, hpc, hdig, hr, hc⟩
        · exfalso
          have hb := posU_bounds _ hu10
          rw [← hpu] at hb
          simp only at hb
          omega
        · exact h
        · exfalso
          have : pc.2 ∈ [7, 8, 9, 6, 5, 4, 3, 2] := by
            fin_cases hpc <;> simp
          rcases h2 with h2 | h2
          · -- c = 6 forces pc = (100000, 6), whose probe rows need r ≤ 11
            omega
          · omega
      · exfalso
        have := hextra _ hin
        omega
    · intro h
      exact Or.inl ((mem_id_to_cells v r c).mpr (Or.inr (Or.inl h)))
  have hmemP : ∀ pc ∈ placeTable, ∀ r, 3 ≤ r → r ≤ 11 →
      (read_cell (id_to_cells v ++ extra) r pc.2 = true ↔
        (v / pc.1 % 10 > 0 ∧ r = 11 - (v / pc.1 % 10 - 1))) := by
    intro pc hpc r h1 h2
    simp only [read_cell, decide_eq_true_eq, List.mem_append]
    constructor
    · rintro (hin | hin)
      · rw [mem_id_to_cells] at hin
        rcases hin with ⟨hu, hpu⟩ | ⟨hd, hpd⟩ | ⟨pc2, hpc2, hdig, hr, hc⟩
        · exfalso
          have hb := posU_bounds _ hu10
          rw [← hpu] at hb
          simp only at hb
          omega
        · exfalso
          have hb := posD_bounds _ (hd10 10)
          rw [← hpd] at hb
          simp only at hb
          omega
        · have heq : pc2 = pc := placeTable_col_inj _ hpc2 _ hpc hc.symm
          subst heq
          exact ⟨hdig, hr⟩
      · exfalso
        have := hextra _ hin
        omega
    · intro h
      refine Or.inl ((mem_id_to_cells v r pc.2).mpr (Or.inr (Or.inr ⟨pc, hpc, h.1, h.2, rfl⟩)))
  have hsufmem : ∀ c, 7 ≤ c → c ≤ 9 → (13, c) ∉ id_to_cells v := by
    intro c h1 h2 hin
    rw [mem_id_to_cells] at hin
    rcases hin with ⟨hu, hpu⟩ | ⟨hd, hpd⟩ | ⟨pc, hpc, hdig, hr, hc⟩
    · have hb := posU_bounds _ hu10
      rw [← hpu] at hb
      simp only at hb
      omega
    · have hb := posD_bounds _ (hd10 10)
      rw [← hpd] at hb
      simp only at hb
      omega
    · omega
  have hsuf : scanSuffixCells (id_to_cells v ++ extra) suffixInvTable
      = scanSuffixCells extra suffixInvTable := by
    have n7 := hsufmem 7 (by norm_num) (by norm_num)
    have n8 := hsufmem 8 (by norm_num) (by norm_num)
    have n9 := hsufmem 9 (by norm_num) (by norm_num)
    simp [scanSuffixCells, suffixInvTable, read_cell, List.mem_append, n7, n8, n9]
  simp only [read_block, placeTable, List.foldl]
  rw [scanUnits_spec _ _ hu10 hmemU,
      readTens_spec _ _ (hd10 10) hmemT,
      scanPlace_spec _ 100 7 _ (hd10 100) (hmemP (100, 7) (by simp [placeTable])),
      scanPlace_spec _ 1000 8 _ (hd10 1000) (hmemP (1000, 8) (by simp [placeTable])),
      scanPlace_spec _ 10000 9 _ (hd10 10000) (hmemP (10000, 9) (by simp [placeTable])),
      scanPlace_spec _ 100000 6 _ (hd10 100000) (hmemP (100000, 6) (by simp [placeTable])),
      scanPlace_spec _ 1000000 5 _ (hd10 1000000) (hmemP (1000000, 5) (by simp [placeTable])),
      scanPlace_spec _ 10000000 4 _ (hd10 10000000) (hmemP (10000000, 4) (by simp [placeTable])),
      scanPlace_spec _ 100000000 3 _ (hd10 100000000) (hmemP (100000000, 3) (by simp [placeTable])),
      scanPlace_spec _ 1000000000 2 _ (hd10 1000000000) (hmemP (1000000000, 2) (by simp [placeTable]))]
  rw [hsuf]
  refine Prod.ext ?_ rfl
  simp only
  omega

lemma digitChar_toNat (d : Nat) (h : d < 10) : (digitChar d).toNat = 48 + d := by
  interval_cases d <;> decide

lemma digitChar_isDigit (d : Nat) (h : d < 10) : (digitChar d).isDigit = true := by
  interval_cases d <;> decide

lemma foldl_digits (L : List Nat) (hL : ∀ d ∈ L, d < 10) (a : Nat) :
    List.foldl (fun x c => 10 * x + (c.toNat - 48)) a (L.reverse.map digitChar)
      = a * 10 ^ L.length + Nat.ofDigits 10 L := by
  induction L generalizing a with
  | nil => simp
  | cons d ds ih =>
    have hd : d < 10 := hL d (by simp)
    have hds : ∀ x ∈ ds, x < 10 := fun x hx => hL x (by simp [hx])
    simp only [List.reverse_cons, List.map_append, List.map_cons, List.map_nil,
      List.foldl_append, List.foldl_cons, List.foldl_nil, ih hds a,
      Nat.ofDigits_cons, List.length_cons]
    rw [digitChar_toNat d hd]
    have h48 : 48 + d - 48 = d := by omega
    rw [h48]
    ring

lemma natRepr_data_digits (n : Nat) : ∀ ch ∈ (natRepr n).data, ch.isDigit = true := by
  intro ch hch
  rw [natRepr] at hch
  by_cases h0 : n = 0
  · simp [h0] at hch
    simp [hch]
  · simp only [h0, if_false, List.asString] at hch
    simp only [List.mem_map, List.mem_reverse] at hch
    obtain ⟨d, hd, rfl⟩ := hch
    exact digitChar_isDigit d (Nat.digits_lt_base (by norm_num) hd)

lemma natRepr_data_ne_nil (n : Nat) : (natRepr n).data ≠ [] := by
  rw [natRepr]
  by_cases h0 : n = 0
  · simp [h0]
  · simp only [h0, if_false, List.asString]
    simp only [ne_eq, List.map_eq_nil_iff, List.reverse_eq_nil_iff]
    exact Nat.digits_ne_nil_iff_ne_zero.mpr h0

lemma strToNat_natRepr (n : Nat) : strToNat (natRepr n).data = n := by
  rw [natRepr]
  by_cases h0 : n = 0
  · simp [h0, strToNat]
  · simp only [h0, if_false, List.asString, strToNat]
    have := foldl_digits (Nat.digits 10 n)
      (fun d hd => Nat.digits_lt_base (by norm_num) hd) 0
    rw [this, Nat.ofDigits_digits]
    ring


lemma getLast?_cons_eq_or (a : Char) (l : List Char) :
    (a :: l).getLast? = l.getLast?.or (some a) := by
  cases l with
  | nil => rfl
  | cons b bs =>
    rw [List.getLast?_cons_cons]
    have hs : (b :: bs).getLast?.isSome := by
      rw [List.getLast?_isSome]
      simp
    obtain ⟨x, hx⟩ := Option.isSome_iff_exists.mp hs
    rw [hx]
    rfl

lemma digit_not_tag (c : Char) (h : c.isDigit = true) : ¬ (c ∈ tagChars) := by
  intro hmem
  fin_cases hmem <;> simp [Char.isDigit] at h

lemma tag_not_digit (c : Char) (h : c ∈ tagChars) : c.isDigit = false := by
  fin_cases h <;> decide

lemma parseScan_aux (cs : List Char) (acc1 : List Char) (acc2 : Option Char) :
    List.foldl
      (fun (acc : List Char × Option Char) ch =>
        if ch.isDigit then (acc.1 ++ [ch], acc.2)
        else if ch ∈ tagChars then (acc.1, some ch)
        else acc)
      (acc1, acc2) cs
      = (acc1 ++ cs.filter Char.isDigit,
         ((cs.filter (fun c => decide (c ∈ tagChars))).getLast?).or acc2) := by
  induction cs generalizing acc1 acc2 with
  | nil => simp
  | cons c cs ih =>
    by_cases hd : c.isDigit = true
    · have hnt : ¬ (c ∈ tagChars) := digit_not_tag c hd
      simp [List.foldl_cons, hd, hnt, ih, List.filter_cons]
    · by_cases ht : c ∈ tagChars
      · have hnd : c.isDigit = false := tag_not_digit c ht
        simp only [List.foldl_cons, hnd, Bool.false_eq_true, if_false, ht, if_true, ih,
          List.filter_cons]
        cases hl : (List.filter (fun c => decide (c ∈ tagChars)) cs).getLast? <;>
          simp [hl, getLast?_cons_eq_or, Option.or]
      · simp [List.foldl_cons, hd, ht, ih, List.filter_cons]

lemma parseItem_spec (token : String) :
    parseItem token
      = (⟨token.data.filter Char.isDigit⟩,
         (token.data.filter (fun c => decide (c ∈ tagChars))).getLast?) := by
  rw [parseItem, parseScan_aux]
  simp


lemma rle_cons (x : String) (xs : List String) :
    rle (x :: xs)
      = x :: ((if countRun x xs + 1 > 1 then [natRepr (countRun x xs + 1) ++ "r"] else [])
          ++ rle (xs.drop (countRun x xs))) := by
  rw [rle]

lemma countRun_le (x : String) (xs : List String) : countRun x xs ≤ xs.length := by
  induction xs with
  | nil => simp [countRun]
  | cons y ys ih =>
    rw [countRun]
    split
    · simp only [List.length_cons]
      omega
    · omega

lemma countRun_take (x : String) (xs : List String) :
    xs.take (countRun x xs) = List.replicate (countRun x xs) x := by
  induction xs with
  | nil => simp [countRun]
  | cons y ys ih =>
    rw [countRun]
    split
    · rename_i heq
      rw [List.take_succ_cons, List.replicate_succ, heq, ih]
    · simp

lemma countRun_drop_head (x : String) (xs : List String) :
    ∀ y, (xs.drop (countRun x xs)).head? = some y → y ≠ x := by
  induction xs with
  | nil => intro y hy; simp at hy
  | cons z zs ih =>
    rw [countRun]
    split
    · rename_i heq
      intro y hy
      rw [List.drop_succ_cons] at hy
      exact ih y hy
    · rename_i hne
      intro y hy
      simp only [List.drop_zero, List.head?_cons, Option.some.injEq] at hy
      rw [← hy]
      exact fun hzx => hne hzx

lemma data_append (a b : String) : (a ++ b).data = a.data ++ b.data := rfl

lemma isRepItem_rep (k : Nat) : isRepItem (natRepr k ++ "r") = true := by
  rw [isRepItem, data_append]
  simp [List.getLast?_concat]

lemma ne_of_rep_ne (a b : String) (ha : isRepItem a = false) (hb : isRepItem b = true) :
    a ≠ b := by
  intro h
  rw [h, hb] at ha
  simp at ha

lemma rle_head? (l : List String) : (rle l).head? = l.head? := by
  cases l with
  | nil => rw [rle]
  | cons x xs =>
    rw [rle_cons]
    rfl

lemma rle_no_adjacent_aux (n : Nat) :
    ∀ l : List String, l.length ≤ n → (∀ s ∈ l, isRepItem s = false) →
      List.Chain' (fun a b => a ≠ b) (rle l) := by
  induction n with
  | zero =>
    intro l hlen _
    have hnil : l = [] := List.eq_nil_of_length_eq_zero (by omega)
    rw [hnil, rle]
    exact List.chain'_nil
  | succ n ih =>
    intro l hlen hl
    cases l with
    | nil =>
      rw [rle]
      exact List.chain'_nil
    | cons x xs =>
      rw [rle_cons]
      have hx : isRepItem x = false := hl x (by simp)
      have hcle := countRun_le x xs
      have hdroplen : (xs.drop (countRun x xs)).length ≤ n := by
        rw [List.length_drop]
        simp only [List.length_cons] at hlen
        omega
      have hdropall : ∀ s ∈ xs.drop (countRun x xs), isRepItem s = false :=
        fun s hs => hl s (by simp [List.mem_of_mem_drop hs])
      have hchain := ih (xs.drop (countRun x xs)) hdroplen hdropall
      by_cases hc : countRun x xs = 0
      · rw [hc]
        simp only [List.drop_zero] at *
        have : ¬ (0 + 1 > 1) := by omega
        rw [if_neg this]
        simp only [List.nil_append]
        rw [List.chain'_cons']
        refine ⟨?_, ?_⟩
        · intro y hy
          rw [rle_head?] at hy
          have := countRun_drop_head x xs y (by rw [hc, List.drop_zero]; exact hy)
          exact fun hxy => this hxy.symm
        · rw [hc, List.drop_zero] at hchain
          exact hchain
      · have hpos : countRun x xs + 1 > 1 := by omega
        rw [if_pos hpos]
        simp only [List.cons_append, List.nil_append]
        rw [List.chain'_cons']
        refine ⟨?_, ?_⟩
        · intro y hy
          simp only [List.head?_cons, Option.mem_def, Option.some.injEq] at hy
          rw [← hy]
          exact ne_of_rep_ne x _ hx (isRepItem_rep _)
        · rw [List.chain'_cons']
          refine ⟨?_, hchain⟩
          intro y hy
          rw [rle_head?] at hy
          have hymem : y ∈ xs.drop (countRun x xs) := by
            cases hxd : xs.drop (countRun x xs) with
            | nil => rw [hxd] at hy; simp at hy
            | cons a as =>
              rw [hxd] at hy
              simp only [List.head?_cons, Option.mem_def, Option.some.injEq] at hy
              simp [hxd, ← hy]
          have hyrep := hdropall y hymem
          exact fun heq => (ne_of_rep_ne y _ hyrep (isRepItem_rep _)) heq.symm

lemma rle_rep_shape_aux (n : Nat) :
    ∀ l : List String, l.length ≤ n → (∀ s ∈ l, isRepItem s = false) →
      ∀ i s, (rle l)[i]? = some s → isRepItem s = true →
        ∃ k prev, 2 ≤ k ∧ s = natRepr k ++ "r" ∧ 1 ≤ i ∧
          (rle l)[i-1]? = some prev ∧ isRepItem prev = false := by
  induction n with
  | zero =>
    intro l hlen _ i s hi _
    have hnil : l = [] := List.eq_nil_of_length_eq_zero (by omega)
    rw [hnil, rle] at hi
    simp at hi
  | succ n ih =>
    intro l hlen hl i s hi hrep
    cases l with
    | nil =>
      rw [rle] at hi
      simp at hi
    | cons x xs =>
      have hx : isRepItem x = false := hl x (by simp)
      have hdroplen : (xs.drop (countRun x xs)).length ≤ n := by
        rw [List.length_drop]
        simp only [List.length_cons] at hlen
        omega
      have hdropall : ∀ t ∈ xs.drop (countRun x xs), isRepItem t = false :=
        fun t ht => hl t (by simp [List.mem_of_mem_drop ht])
      rw [rle_cons] at hi
      by_cases hc : countRun x xs = 0
      · rw [hc] at hi
        rw [if_neg (by omega : ¬ (0 + 1 > 1))] at hi
        simp only [List.nil_append, List.drop_zero] at hi
        cases i with
        | zero =>
          simp only [List.getElem?_cons_zero, Option.some.injEq] at hi
          rw [← hi] at hrep
          rw [hrep] at hx
          simp at hx
        | succ j =>
          rw [List.getElem?_cons_succ] at hi
          obtain ⟨k, prev, hk, hs, hj1, hprev, hprevrep⟩ :=
            ih xs (by simp only [List.length_cons] at hlen; omega)
              (fun t ht => hl t (by simp [ht])) j s hi hrep
          refine ⟨k, prev, hk, hs, by omega, ?_, hprevrep⟩
          rw [rle_cons, hc]
          rw [if_neg (by omega : ¬ (0 + 1 > 1))]
          simp only [List.nil_append, List.drop_zero]
          have hj : j + 1 - 1 = j := by omega
          rw [hj]
          cases j with
          | zero => omega
          | succ m =>
            rw [List.getElem?_cons_succ]
            have hm : m + 1 - 1 = m := by omega
            rw [hm] at hprev
            exact hprev
      · rw [if_pos (by omega : countRun x xs + 1 > 1)] at hi
        simp only [List.cons_append, List.nil_append] at hi
        cases i with
        | zero =>
          simp only [List.getElem?_cons_zero, Option.some.injEq] at hi
          rw [← hi] at hrep
          rw [hrep] at hx
          simp at hx
        | succ j =>
          cases j with
          | zero =>
            rw [List.getElem?_cons_succ, List.getElem?_cons_zero] at hi
            refine ⟨countRun x xs + 1, x, by omega, ?_, by omega, ?_, hx⟩
            · rw [Option.some.injEq] at hi
              rw [← hi]
            · rw [rle_cons]
              rw [if_pos (by omega : countRun x xs + 1 > 1)]
              simp
          | succ m =>
            rw [List.getElem?_cons_succ, List.getElem?_cons_succ] at hi
            obtain ⟨k, prev, hk, hs, hm1, hprev, hprevrep⟩ :=
              ih (xs.drop (countRun x xs)) hdroplen hdropall m s hi hrep
            refine ⟨k, prev, hk, hs, by omega, ?_, hprevrep⟩
            rw [rle_cons]
            rw [if_pos (by omega : countRun x xs + 1 > 1)]
            simp only [List.cons_append, List.nil_append]
            have hidx : m + 1 + 1 - 1 = m + 1 := by omega
            rw [hidx]
            cases m with
            | zero => omega
            | succ p =>
              rw [List.getElem?_cons_succ, List.getElem?_cons_succ]
              have hp : p + 1 - 1 = p := by omega
              rw [hp] at hprev
              exact hprev

lemma natRepr_filter_digits (k : Nat) :
    (natRepr k).data.filter Char.isDigit = (natRepr k).data :=
  List.filter_eq_self.mpr (fun c hc => natRepr_data_digits k c hc)

lemma repItem_count (k : Nat) :
    strToNat ((natRepr k ++ "r").data.filter Char.isDigit) = k := by
  rw [data_append, List.filter_append]
  have h1 : List.filter Char.isDigit "r".data = [] := by decide
  rw [h1, natRepr_filter_digits, List.append_nil, strToNat_natRepr]

lemma expandStep_nonrep (acc : List String) (x : String) (hx : isRepItem x = false) :
    expandStep acc x = acc ++ [x] := by
  rw [expandStep, hx]
  simp

lemma expandStep_rep (acc : List String) (x : String) (k : Nat)
    (hlast : acc.getLast? = some x) :
    expandStep acc (natRepr k ++ "r") = acc ++ List.replicate (k - 1) x := by
  rw [expandStep, isRepItem_rep]
  simp only [if_true, hlast, repItem_count]

lemma expand_rle_aux (n : Nat) :
    ∀ l : List String, l.length ≤ n → (∀ s ∈ l, isRepItem s = false) →
      ∀ acc, List.foldl expandStep acc (rle l) = acc ++ l := by
  induction n with
  | zero =>
    intro l hlen _ acc
    have hnil : l = [] := List.eq_nil_of_length_eq_zero (by omega)
    rw [hnil, rle]
    simp
  | succ n ih =>
    intro l hlen hl acc
    cases l with
    | nil =>
      rw [rle]
      simp
    | cons x xs =>
      have hx : isRepItem x = false := hl x (by simp)
      have hdroplen : (xs.drop (countRun x xs)).length ≤ n := by
        rw [List.length_drop]
        simp only [List.length_cons] at hlen
        omega
      have hdropall : ∀ t ∈ xs.drop (countRun x xs), isRepItem t = false :=
        fun t ht => hl t (by simp [List.mem_of_mem_drop ht])
      rw [rle_cons]
      by_cases hc : countRun x xs = 0
      · rw [hc]
        rw [if_neg (by omega : ¬ (0 + 1 > 1))]
        simp only [List.nil_append, List.drop_zero, List.foldl_cons]
        rw [expandStep_nonrep acc x hx]
        rw [ih xs (by simp only [List.length_cons] at hlen; omega)
          (fun t ht => hl t (by simp [ht])) (acc ++ [x])]
        simp
      · rw [if_pos (by omega : countRun x xs + 1 > 1)]
        simp only [List.cons_append, List.nil_append, List.foldl_cons]
        rw [expandStep_nonrep acc x hx]
        rw [expandStep_rep (acc ++ [x]) x (countRun x xs + 1) (List.getLast?_concat acc)]
        rw [ih (xs.drop (countRun x xs)) hdroplen hdropall]
        have hsplit : x :: xs
            = x :: (List.replicate (countRun x xs) x ++ xs.drop (countRun x xs)) := by
          rw [← countRun_take x xs, List.take_append_drop]
        rw [hsplit]
        have harith : countRun x xs + 1 - 1 = countRun x xs := by omega
        rw [harith]
        simp

lemma string_ne_empty_of_data (s : String) (h : s.data ≠ []) : s ≠ "" := by
  intro he
  rw [he] at h
  exact h rfl

lemma natRepr_tags_nil (k : Nat) :
    (natRepr k).data.filter (fun c => decide (c ∈ tagChars)) = [] := by
  rw [List.filter_eq_nil_iff]
  intro c hc
  have hd := natRepr_data_digits k c hc
  simp [digit_not_tag c hd]

lemma parse_dict_item (tid : Nat) :
    parseItem (natRepr tid ++ "b") = (natRepr tid, some 'b') := by
  rw [parseItem_spec, data_append, List.filter_append, List.filter_append]
  have h1 : List.filter Char.isDigit "b".data = [] := by decide
  have h2 : List.filter (fun c => decide (c ∈ tagChars)) "b".data = ['b'] := by decide
  rw [h1, h2, natRepr_filter_digits, natRepr_tags_nil, List.append_nil, List.nil_append]
  simp

lemma parse_rep_item (k : Nat) :
    parseItem (natRepr k ++ "r") = (natRepr k, some 'r') := by
  rw [parseItem_spec, data_append, List.filter_append, List.filter_append]
  have h1 : List.filter Char.isDigit "r".data = [] := by decide
  have h2 : List.filter (fun c => decide (c ∈ tagChars)) "r".data = ['r'] := by decide
  rw [h1, h2, natRepr_filter_digits, natRepr_tags_nil, List.append_nil, List.nil_append]
  simp

lemma reDigits_core (t : String) (h : reDigitsFull t = true) :
    t.data.filter Char.isDigit ≠ [] ∧
    t.data.filter (fun c => decide (c ∈ tagChars)) = [] := by
  rw [reDigitsFull] at h
  simp only [Bool.and_eq_true, decide_eq_true_eq, List.all_eq_true] at h
  obtain ⟨hne, hall⟩ := h
  by_cases hnl : t.data.getLast? = some nlChar
  · rw [if_pos hnl] at hne hall
    have hlne : t.data ≠ [] := by
      intro he
      rw [he] at hnl
      simp at hnl
    have hsplit : t.data = t.data.dropLast ++ [nlChar] := by
      conv_lhs => rw [← List.dropLast_append_getLast hlne]
      have := List.getLast?_eq_getLast t.data hlne
      rw [this] at hnl
      simp only [Option.some.injEq] at hnl
      rw [hnl]
    constructor
    · rw [hsplit, List.filter_append]
      have hfd : List.filter Char.isDigit t.data.dropLast = t.data.dropLast :=
        List.filter_eq_self.mpr hall
      rw [hfd]
      intro he
      rw [List.append_eq_nil] at he
      exact hne he.1
    · rw [hsplit, List.filter_append]
      have hfd : List.filter (fun c => decide (c ∈ tagChars)) t.data.dropLast = [] := by
        rw [List.filter_eq_nil_iff]
        intro c hc
        simp [digit_not_tag c (hall c hc)]
      rw [hfd]
      decide
  · rw [if_neg hnl] at hne hall
    constructor
    · rw [List.filter_eq_self.mpr hall]
      exact hne
    · rw [List.filter_eq_nil_iff]
      intro c hc
      simp [digit_not_tag c (hall c hc)]

lemma parse_lit_item (t : String) (h : reDigitsFull t = true) :
    parseItem (t ++ "n") = (⟨t.data.filter Char.isDigit⟩, some 'n') := by
  obtain ⟨hne, htags⟩ := reDigits_core t h
  rw [parseItem_spec, data_append, List.filter_append, List.filter_append]
  have h1 : List.filter Char.isDigit "n".data = [] := by decide
  have h2 : List.filter (fun c => decide (c ∈ tagChars)) "n".data = ['n'] := by decide
  rw [h1, h2, htags, List.append_nil, List.nil_append]
  simp

lemma decodeStep_rep (dec : Nat → Option String) (words : List String)
    (w : String) (k : Nat) (hw : words.getLast? = some w) :
    decodeStep dec words (natRepr k ++ "r") = words ++ List.replicate (k - 1) w := by
  rw [decodeStep, parse_rep_item]
  simp only
  rw [if_neg (string_ne_empty_of_data _ (natRepr_data_ne_nil k))]
  rw [strToNat_natRepr]
  simp only [Option.some.injEq, reduceCtorEq, if_false]
  rw [if_neg (by decide : ¬ ('r' = 'n')), if_pos trivial, hw]

lemma decodeStep_dict (dec : Nat → Option String) (words : List String) (tid : Nat) :
    decodeStep dec words (natRepr tid ++ "b")
      = words ++ [match dec tid with
                  | some w => w
                  | none => "[?" ++ natRepr tid ++ "]"] := by
  rw [decodeStep, parse_dict_item]
  simp only
  rw [if_neg (string_ne_empty_of_data _ (natRepr_data_ne_nil tid))]
  rw [strToNat_natRepr]
  simp only [Option.some.injEq]
  rw [if_neg (by decide : ¬ ('b' = 'n')), if_neg (by decide : ¬ ('b' = 'r')),
      if_neg (by decide : ¬ ('b' = 's'))]
  cases dec tid <;> simp

lemma decodeStep_lit (dec : Nat → Option String) (words : List String)
    (t : String) (h : reDigitsFull t = true) :
    decodeStep dec words (t ++ "n")
      = words ++ [natRepr (strToNat (t.data.filter Char.isDigit))] := by
  rw [decodeStep, parse_lit_item t h]
  simp only
  rw [if_neg (string_ne_empty_of_data _ (reDigits_core t h).1)]
  rw [if_pos trivial]

lemma item1_decode_one (enc : String → Option Nat) (lang X it : String)
    (dec : Nat → Option String) (hit : item1 enc lang X = some it) :
    ∃ w, ∀ words, decodeStep dec words it = words ++ [w] := by
  rw [item1] at hit
  by_cases hd : reDigitsFull X = true
  · rw [if_pos hd] at hit
    simp only [Option.some.injEq] at hit
    refine ⟨natRepr (strToNat (X.data.filter Char.isDigit)), fun words => ?_⟩
    rw [← hit]
    exact decodeStep_lit dec words X hd
  · rw [if_neg hd] at hit
    simp only at hit
    rcases h1 : enc (if lang ≠ "zh" then pyLower X else X) with _ | tid
    · rw [h1] at hit
      simp only at hit
      rcases h2 : enc X with _ | tid2
      · rw [h2] at hit
        simp at hit
      · rw [h2] at hit
        simp only [Option.some.injEq] at hit
        refine ⟨match dec tid2 with
                | some w => w
                | none => "[?" ++ natRepr tid2 ++ "]", fun words => ?_⟩
        rw [← hit]
        exact decodeStep_dict dec words tid2
    · rw [h1] at hit
      simp only [Option.some.injEq] at hit
      refine ⟨match dec tid with
              | some w => w
              | none => "[?" ++ natRepr tid ++ "]", fun words => ?_⟩
      rw [← hit]
      exact decodeStep_dict dec words tid

lemma countRun_replicate (x : String) (m : Nat) :
    countRun x (List.replicate m x) = m := by
  induction m with
  | zero => rw [List.replicate_zero, countRun]
  | succ m ih =>
    rw [List.replicate_succ, countRun, if_pos rfl, ih]

lemma rle_replicate (x : String) (k : Nat) (hk : 2 ≤ k) :
    rle (List.replicate k x) = [x, natRepr k ++ "r"] := by
  have hk1 : k = (k - 1) + 1 := by omega
  rw [hk1, List.replicate_succ, rle_cons, countRun_replicate]
  rw [if_pos (by omega : k - 1 + 1 > 1)]
  rw [List.drop_replicate]
  simp only [Nat.sub_self, List.replicate_zero, rle]
  simp

lemma phase1_replicate (enc : String → Option Nat) (lang X it : String) (k : Nat)
    (hit : item1 enc lang X = some it) :
    (phase1 enc lang (List.replicate k X)).1 = List.replicate k it := by
  induction k with
  | zero =>
    rw [List.replicate_zero, phase1, List.replicate_zero]
  | succ m ih =>
    rw [List.replicate_succ, phase1, hit, List.replicate_succ]
    simp [ih]


lemma digits10 (n : Nat) (h : 0 < n) :
    Nat.digits 10 n = n % 10 :: Nat.digits 10 (n / 10) :=
  Nat.digits_def' (by norm_num) h

lemma natRepr3 : natRepr 3 = "3" := by
  rw [natRepr]; norm_num [digits10, digitChar]; rfl

lemma natRepr5 : natRepr 5 = "5" := by
  rw [natRepr]; norm_num [digits10, digitChar]; rfl

lemma natRepr7 : natRepr 7 = "7" := by
  rw [natRepr]; norm_num [digits10, digitChar]; rfl

lemma item1_none (enc : String → Option Nat) (lang t : String)
    (h1 : reDigitsFull t = false)
    (h2 : enc (if lang ≠ "zh" then pyLower t else t) = none)
    (h3 : enc t = none) :
    item1 enc lang t = none := by
  rw [item1, if_neg (by simp [h1])]
  simp only
  rw [h2, h3]

lemma phase1_skip (enc : String → Option Nat) (lang t : String)
    (h : item1 enc lang t = none) (pre post : List String) :
    (phase1 enc lang (pre ++ t :: post)).1 = (phase1 enc lang (pre ++ post)).1 := by
  induction pre with
  | nil =>
    simp only [List.nil_append]
    rw [phase1, h]
  | cons p ps ih =>
    simp only [List.cons_append]
    rw [phase1, phase1]
    cases item1 enc lang p <;> simp [ih]


lemma item1_last (enc : String → Option Nat) (lang t s : String)
    (h : item1 enc lang t = some s) :
    s.data.getLast? = some 'n' ∨ s.data.getLast? = some 'b' := by
  rw [item1] at h
  by_cases hd : reDigitsFull t = true
  · rw [if_pos hd] at h
    simp only [Option.some.injEq] at h
    left
    rw [← h, data_append]
    simp [List.getLast?_concat]
  · rw [if_neg hd] at h
    simp only at h
    rcases h1 : enc (if lang ≠ "zh" then pyLower t else t) with _ | tid
    · rw [h1] at h
      simp only at h
      rcases h2 : enc t with _ | tid2
      · rw [h2] at h
        simp at h
      · rw [h2] at h
        simp only [Option.some.injEq] at h
        right
        rw [← h, data_append]
        simp [List.getLast?_concat]
    · rw [h1] at h
      simp only [Option.some.injEq] at h
      right
      rw [← h, data_append]
      simp [List.getLast?_concat]

lemma item1_not_rep (enc : String → Option Nat) (lang t s : String)
    (h : item1 enc lang t = some s) : isRepItem s = false := by
  rw [isRepItem]
  rcases item1_last enc lang t s h with hl | hl <;> simp [hl]

lemma phase1_not_rep (enc : String → Option Nat) (lang : String) (ts : List String) :
    ∀ s ∈ (phase1 enc lang ts).1, isRepItem s = false := by
  induction ts with
  | nil =>
    intro s hs
    rw [phase1] at hs
    simp at hs
  | cons t ts ih =>
    intro s hs
    rw [phase1] at hs
    rcases hit : item1 enc lang t with _ | s0
    · rw [hit] at hs
      simp only at hs
      exact ih s hs
    · rw [hit] at hs
      simp only [List.mem_cons] at hs
      rcases hs with rfl | hs
      · exact item1_not_rep enc lang t s hit
      · exact ih s hs


/-- C1: grid-codec round trip: for every v between 0 and 9999999999,
rendering v with id_to_cells and reading the block back with read_block
yields exactly (v, tag letter b, the Dictionary default). -/
theorem claim_C1_grid_roundtrip (v : Nat) (hv : v ≤ 9999999999) :
    read_block (id_to_cells v) = (v, 'b') := by
  have h := read_block_append v hv [] (by intro p hp; simp at hp)
  have hs : scanSuffixCells ([] : List (Nat × Nat)) suffixInvTable = 'b' := by decide
  rw [List.append_nil] at h
  rw [h, hs]

/-- C1 witness at the concrete value 1234567890. -/
theorem claim_C1_grid_roundtrip_witness :
    read_block (id_to_cells 1234567890) = (1234567890, 'b') :=
  claim_C1_grid_roundtrip 1234567890 (by norm_num)

/-- C6: for every value and each (place, column) pair of the eight high
places, the cell (11 - (digit - 1), column) is lit whenever
digit = value / place mod 10 is nonzero; and id_to_cells 205 is exactly
the cell list [(15, 8), (10, 7)]. -/
theorem claim_C6_digit_placement :
    (∀ v : Nat, ∀ pc ∈ placeTable, v / pc.1 % 10 ≠ 0 →
      (11 - (v / pc.1 % 10 - 1), pc.2) ∈ id_to_cells v) ∧
    id_to_cells 205 = [(15, 8), (10, 7)] := by
  constructor
  · intro v pc hpc hd
    exact (mem_id_to_cells v _ _).mpr
      (Or.inr (Or.inr ⟨pc, hpc, Nat.pos_of_ne_zero hd, rfl, rfl⟩))
  · decide

/-- C6 witness: the hundreds digit 2 of 205 lights cell (10, 7). -/
theorem claim_C6_digit_placement_witness : (10, 7) ∈ id_to_cells 205 := by
  have h := claim_C6_digit_placement.1 205 (100, 7) (by decide) (by decide)
  norm_num at h
  exact h

/-- C2: run-length law: phase-1 encoding X (successfully, to wire item it)
repeated k times, k at least 2, compresses to [it, k plus tag letter r];
decoding [it, k plus r] yields exactly k copies of the word decoded
for it. -/
theorem claim_C2_runlength_law (enc : String → Option Nat) (lang X it : String)
    (dec : Nat → Option String) (k : Nat) (hk : 2 ≤ k)
    (hX : item1 enc lang X = some it) :
    encode_tokens enc lang (List.replicate k X) = [it, natRepr k ++ "r"] ∧
    ∃ w, decodeWords dec [it] = [w] ∧
      decodeWords dec [it, natRepr k ++ "r"] = List.replicate k w := by
  constructor
  · rw [encode_tokens, phase1_replicate enc lang X it k hX, rle_replicate it k hk]
  · obtain ⟨w, hw⟩ := item1_decode_one enc lang X it dec hX
    refine ⟨w, ?_, ?_⟩
    · rw [decodeWords, List.foldl_cons, List.foldl_nil, hw []]
      simp
    · rw [decodeWords, List.foldl_cons, List.foldl_cons, List.foldl_nil, hw []]
      simp only [List.nil_append]
      rw [decodeStep_rep dec [w] w k (by simp)]
      have hrepl : List.replicate k w = w :: List.replicate (k - 1) w := by
        conv_lhs => rw [show k = (k - 1) + 1 by omega]
        rw [List.replicate_succ]
      rw [hrepl]
      simp

/-- C2 witness at the Scenario A Lexicon, token hola and k = 3. -/
theorem claim_C2_runlength_law_witness :
    encode_tokens esLex "es" (List.replicate 3 "hola") = ["7b", natRepr 3 ++ "r"] ∧
    ∃ w, decodeWords esLexInv ["7b"] = [w] ∧
      decodeWords esLexInv ["7b", natRepr 3 ++ "r"] = List.replicate 3 w := by
  have hX : item1 esLex "es" "hola" = some "7b" := by
    have h2 : item1 esLex "es" "hola" = some (natRepr 7 ++ "b") := rfl
    rw [h2, natRepr7]
    rfl
  exact claim_C2_runlength_law esLex "es" "hola" "7b" esLexInv 3 (by norm_num) hX

/-- C3: Scenario A: with the Spanish Lexicon mapping hola to ID 7,
encode of hola hola hola yields the wire items 7b and 3r, and decode of
the wire text 7b 3r yields the text Hola hola hola. -/
theorem claim_C3_scenario_a :
    encode encDictsA "es" "hola hola hola" = ["7b", "3r"] ∧
    decode decDictsA "es" "7b 3r" = "Hola hola hola" := by
  constructor
  · have htok : tokenize "hola hola hola" "es" = ["hola", "hola", "hola"] := by decide
    have h1 : encode encDictsA "es" "hola hola hola"
        = encode_tokens esLex "es" (tokenize "hola hola hola" "es") := rfl
    have hitem : item1 esLex "es" "hola" = some "7b" := by
      have h2 : item1 esLex "es" "hola" = some (natRepr 7 ++ "b") := rfl
      rw [h2, natRepr7]
      rfl
    rw [h1, htok, encode_tokens]
    have hraw : (phase1 esLex "es" ["hola", "hola", "hola"]).1 = ["7b", "7b", "7b"] := by
      simp [phase1, hitem]
    rw [hraw, rle]
    norm_num [countRun, natRepr3, rle]
    rfl
  · have hsplit : pySplit "7b 3r" = ["7b", "3r"] := by decide
    have h1 : decode decDictsA "es" "7b 3r"
        = (if "es" = "zh" then String.join (decodeWords esLexInv (pySplit "7b 3r"))
           else if decodeWords esLexInv (pySplit "7b 3r") = [] then ""
           else capitalizeText (String.join (buildParts (decodeWords esLexInv (pySplit "7b 3r"))))) := rfl
    have hw : decodeWords esLexInv (pySplit "7b 3r") = ["hola", "hola", "hola"] := by
      rw [hsplit]
      simp [decodeWords, decodeStep, parseItem, tagChars, strToNat, esLexInv]
    rw [h1, hw]
    have hb : buildParts ["hola", "hola", "hola"] = ["hola", " hola", " hola"] := by decide
    rw [hb]
    have hj : String.join ["hola", " hola", " hola"] = "hola hola hola" := by decide
    rw [hj]
    have hc : capitalizeText "hola hola hola" = "Hola hola hola" := by
      simp [capitalizeText, capSub, pyUpperChar, sentenceLetterClass]
    rw [hc]
    simp

/-- C4: lossy asymmetry: a non-digit token whose lowercase and exact-case
lookups both fail is omitted from the encoded wire sequence entirely,
while a Dictionary-tagged wire item whose ID the reverse map lacks makes
decode append the visible placeholder word and continue. -/
theorem claim_C4_lossy_asymmetry :
    (∀ (enc : String → Option Nat) (lang : String) (pre post : List String)
       (t : String),
      reDigitsFull t = false →
      enc (if lang ≠ "zh" then pyLower t else t) = none →
      enc t = none →
      encode_tokens enc lang (pre ++ t :: post) = encode_tokens enc lang (pre ++ post)) ∧
    (∀ (dec : Nat → Option String) (words : List String) (token : String),
      (parseItem token).1 ≠ "" →
      ((parseItem token).2 = none ∨ (parseItem token).2 = some 'b') →
      dec (strToNat (parseItem token).1.data) = none →
      decodeStep dec words token
        = words ++ ["[?" ++ natRepr (strToNat (parseItem token).1.data) ++ "]"]) := by
  constructor
  · intro enc lang pre post t h1 h2 h3
    rw [encode_tokens, encode_tokens, phase1_skip enc lang t (item1_none enc lang t h1 h2 h3) pre post]
  · intro dec words token hne hsuf hdec
    rw [decodeStep]
    simp only
    rw [if_neg hne]
    rcases hsuf with hsuf | hsuf <;>
      rw [hsuf] <;>
      simp only [reduceCtorEq, Option.some.injEq, if_false] <;>
      [skip; rw [if_neg (by decide : ¬ ('b' = 'n')), if_neg (by decide : ¬ ('b' = 'r')),
        if_neg (by decide : ¬ ('b' = 's'))]] <;>
      rw [hdec]

/-- C4 witness: the out-of-vocabulary token adios vanishes from the wire
sequence and the unknown ID 9 decodes to its placeholder. -/
theorem claim_C4_lossy_asymmetry_witness :
    encode_tokens esLex "es" (["adios"] ++ ["hola"]) = encode_tokens esLex "es" ["hola"] ∧
    decodeStep esLexInv [] "9b"
      = [] ++ ["[?" ++ natRepr (strToNat (parseItem "9b").1.data) ++ "]"] := by
  constructor
  · exact claim_C4_lossy_asymmetry.1 esLex "es" [] ["hola"] "adios"
      (by decide) (by decide) (by decide)
  · exact claim_C4_lossy_asymmetry.2 esLexInv [] "9b" (by decide) (by decide) (by decide)

/-- C5 counterexample: the decoder is case-sensitive, so the item 5N is
not treated as Literal(5) the way 5n is: with ID 5 bound to the word five,
5N decodes through the Dictionary branch to five while 5n decodes to 5. -/
theorem claim_C5_counterexample :
    decodeWords dec5 ["5N"] = ["five"] ∧
    decodeWords dec5 ["5n"] = ["5"] ∧
    (["five"] : List String) ≠ ["5"] := by
  refine ⟨by decide, ?_, by decide⟩
  have hp : parseItem "5n" = ("5", some 'n') := by decide
  rw [decodeWords, List.foldl_cons, List.foldl_nil, decodeStep, hp]
  simp only
  rw [if_neg (by decide : ¬ ("5" : String) = "")]
  rw [if_pos trivial]
  have h5 : strToNat ['5'] = 5 := by decide
  rw [h5, natRepr5]
  rfl

/-- C5 amended: the decoder matches tag letters case-sensitively, only the
lowercase letters b, n, s, r; the suffix is the last such character of the
item; 5N therefore carries no recognized tag, and an item without a
recognized tag letter is decoded through the Dictionary default branch. -/
theorem claim_C5_tags_casesensitive :
    (∀ token : String, (parseItem token).2
        = (token.data.filter (fun c => decide (c ∈ tagChars))).getLast?) ∧
    parseItem "5N" = ("5", none) ∧
    (∀ (dec : Nat → Option String) (words : List String) (token : String),
      (parseItem token).1 ≠ "" → (parseItem token).2 = none →
      decodeStep dec words token
        = words ++ [match dec (strToNat (parseItem token).1.data) with
                    | some w => w
                    | none => "[?" ++ natRepr (strToNat (parseItem token).1.data) ++ "]"]) := by
  refine ⟨?_, by decide, ?_⟩
  · intro token
    rw [parseItem_spec]
  · intro dec words token hne hsuf
    rw [decodeStep]
    simp only
    rw [if_neg hne, hsuf]
    simp only [reduceCtorEq, if_false]
    cases dec (strToNat (parseItem token).1.data) <;> simp

/-- C5 amended witness: the item 5N decodes through the Dictionary branch. -/
theorem claim_C5_tags_casesensitive_witness :
    decodeStep dec5 [] "5N"
      = [] ++ [match dec5 (strToNat (parseItem "5N").1.data) with
               | some w => w
               | none => "[?" ++ natRepr (strToNat (parseItem "5N").1.data) ++ "]"] :=
  claim_C5_tags_casesensitive.2.2 dec5 [] "5N" (by decide) (by decide)

/-- C10: multi-tag items: for every wire item the value is the
concatenation of all its digit characters in order and the tag is the
last lowercase tag letter; in particular 1b2r parses as value 12 with
tag r (Repeat), appending 11 copies of the last word. -/
theorem claim_C10_multitag_items :
    (∀ token : String, parseItem token
      = (⟨token.data.filter Char.isDigit⟩,
         (token.data.filter (fun c => decide (c ∈ tagChars))).getLast?)) ∧
    parseItem "1b2r" = ("12", some 'r') ∧
    decodeStep (fun _ => none) ["w"] "1b2r" = "w" :: List.replicate 11 "w" := by
  refine ⟨parseItem_spec, by decide, by decide⟩

/-- C8: RLE output invariants of encode, for every dictionary table,
language and input text: no two adjacent identical items; every repeat
item is the decimal of a count at least 2 with tag letter r, at index at
least 1, right after a non-repeat item; and expanding the repeats
reproduces the raw phase-1 item sequence. -/
theorem claim_C8_rle_invariants (dicts : String → Option (String → Option Nat))
    (lang text : String) :
    List.Chain' (fun a b => a ≠ b) (encode dicts lang text) ∧
    (∀ (i : Nat) (s : String), (encode dicts lang text)[i]? = some s →
      isRepItem s = true →
      ∃ k prev, 2 ≤ k ∧ s = natRepr k ++ "r" ∧ 1 ≤ i ∧
        (encode dicts lang text)[i - 1]? = some prev ∧ isRepItem prev = false) ∧
    expandRLE (encode dicts lang text) = encodeRaw dicts lang text := by
  rcases hdl : dicts lang with _ | enc
  · rw [encode, encodeRaw, hdl]
    refine ⟨List.chain'_nil, ?_, rfl⟩
    intro i s hi
    simp at hi
  · rw [encode, encodeRaw, hdl]
    simp only [encode_tokens]
    have hraw := phase1_not_rep enc lang (tokenize text lang)
    refine ⟨rle_no_adjacent_aux _ _ (le_refl _) hraw,
            fun i s hi hr => rle_rep_shape_aux _ _ (le_refl _) hraw i s hi hr,
            expand_rle_aux _ _ (le_refl _) hraw []⟩

/-- C8 witness at the Scenario A dictionaries and text. -/
theorem claim_C8_rle_invariants_witness :
    List.Chain' (fun a b => a ≠ b) (encode encDictsA "es" "hola hola hola") ∧
    (∀ (i : Nat) (s : String), (encode encDictsA "es" "hola hola hola")[i]? = some s →
      isRepItem s = true →
      ∃ k prev, 2 ≤ k ∧ s = natRepr k ++ "r" ∧ 1 ≤ i ∧
        (encode encDictsA "es" "hola hola hola")[i - 1]? = some prev ∧
        isRepItem prev = false) ∧
    expandRLE (encode encDictsA "es" "hola hola hola")
      = encodeRaw encDictsA "es" "hola hola hola" :=
  claim_C8_rle_invariants encDictsA "es" "hola hola hola"


lemma digit_not_snr (c : Char) (h : c.isDigit = true) :
    ¬ (c ∈ ['s', 'n', 'r', 'S', 'N', 'R']) := by
  intro hmem
  fin_cases hmem <;> simp [Char.isDigit] at h

lemma scanFold_digits (l : List Char) (hl : ∀ c ∈ l, c.isDigit = true)
    (acc : Option Char) :
    List.foldl
      (fun acc ch => if ch ∈ ['s', 'n', 'r', 'S', 'N', 'R'] then some ch.toLower else acc)
      acc l = acc := by
  induction l generalizing acc with
  | nil => rfl
  | cons c cs ih =>
    rw [List.foldl_cons, if_neg (digit_not_snr c (hl c (by simp)))]
    exact ih (fun x hx => hl x (by simp [hx])) acc

lemma singleton_data (c : Char) : (String.singleton c).data = [c] := rfl

lemma stripSuffixScan_canonical (v : Nat) (tag : Char)
    (htag : tag ∈ ['b', 'n', 's', 'r']) :
    stripSuffixScan (natRepr v ++ String.singleton tag)
      = if tag = 'b' then none else some tag := by
  rw [stripSuffixScan, data_append, singleton_data, List.foldl_append,
      scanFold_digits _ (natRepr_data_digits v) none, List.foldl_cons, List.foldl_nil]
  fin_cases htag <;> decide

lemma canonical_numstr (v : Nat) (tag : Char) (htag : tag ∈ ['b', 'n', 's', 'r']) :
    (natRepr v ++ String.singleton tag).data.filter Char.isDigit = (natRepr v).data := by
  rw [data_append, singleton_data, List.filter_append, natRepr_filter_digits]
  have h : List.filter Char.isDigit [tag] = [] := by
    fin_cases htag <;> decide
  rw [h, List.append_nil]

lemma posU_bounds2 (u : Nat) (h : u < 10) :
    1 ≤ (posU u).1 ∧ (posU u).1 ≤ 20 ∧ 1 ≤ (posU u).2 ∧ (posU u).2 ≤ 10 := by
  interval_cases u <;> decide

lemma posD_bounds2 (d : Nat) (h : d < 10) :
    1 ≤ (posD d).1 ∧ (posD d).1 ≤ 20 ∧ 1 ≤ (posD d).2 ∧ (posD d).2 ≤ 10 := by
  interval_cases d <;> decide

lemma id_to_cells_bounds (v : Nat) :
    ∀ p ∈ id_to_cells v, 1 ≤ p.1 ∧ p.1 ≤ 20 ∧ 1 ≤ p.2 ∧ p.2 ≤ 10 := by
  intro p hp
  obtain ⟨r, c⟩ := p
  rw [mem_id_to_cells] at hp
  have h10 : (0 : Nat) < 10 := by norm_num
  rcases hp with ⟨hu, hpu⟩ | ⟨hd, hpd⟩ | ⟨pc, hpc, hdig, hr, hc⟩
  · have hb := posU_bounds2 _ (Nat.mod_lt v h10)
    rw [← hpu] at hb
    exact hb
  · have hb := posD_bounds2 _ (Nat.mod_lt (v / 10) h10)
    rw [← hpd] at hb
    exact hb
  · have hdlt : v / pc.1 % 10 < 10 := Nat.mod_lt _ h10
    have hcols : 2 ≤ pc.2 ∧ pc.2 ≤ 9 := by
      fin_cases hpc <;> simp
    simp only
    omega

lemma bounds_filter_self (v : Nat) (extra : List (Nat × Nat))
    (hextra : ∀ p ∈ extra, 1 ≤ p.1 ∧ p.1 ≤ 20 ∧ 1 ≤ p.2 ∧ p.2 ≤ 10) :
    (id_to_cells v ++ extra).filter (fun rc =>
      decide (1 ≤ rc.1) && decide (rc.1 ≤ 20) && decide (1 ≤ rc.2) && decide (rc.2 ≤ 10))
      = id_to_cells v ++ extra := by
  rw [List.filter_eq_self]
  intro p hp
  rcases List.mem_append.mp hp with hp | hp
  · have h := id_to_cells_bounds v p hp
    simp [h.1, h.2.1, h.2.2.1, h.2.2.2]
  · have h := hextra p hp
    simp [h.1, h.2.1, h.2.2.1, h.2.2.2]

lemma renderBlock_canonical (v : Nat) (tag : Char) (extra : List (Nat × Nat))
    (htag : tag ∈ ['b', 'n', 's', 'r'])
    (hmatch : (match (if tag = 'b' then none else some tag : Option Char) with
               | some sch =>
                 match SUFFIXES sch with
                 | some rc => [rc]
                 | none => ([] : List (Nat × Nat))
               | none => []) = extra)
    (hbounds : ∀ p ∈ extra, 1 ≤ p.1 ∧ p.1 ≤ 20 ∧ 1 ≤ p.2 ∧ p.2 ≤ 10) :
    renderBlock (natRepr v ++ String.singleton tag) = id_to_cells v ++ extra := by
  rw [renderBlock]
  simp only [canonical_numstr v tag htag]
  rw [if_neg (natRepr_data_ne_nil v)]
  rw [stripSuffixScan_canonical v tag htag, strToNat_natRepr, hmatch]
  exact bounds_filter_self v extra hbounds

lemma block_roundtrip (v : Nat) (hv : v ≤ 9999999999) (tag : Char)
    (htag : tag ∈ ['b', 'n', 's', 'r']) :
    read_block (renderBlock (natRepr v ++ String.singleton tag)) = (v, tag) := by
  fin_cases htag
  · rw [renderBlock_canonical v 'b' [] (by decide) (by decide) (by intro p hp; simp at hp)]
    have h := read_block_append v hv [] (by intro p hp; simp at hp)
    rw [h, show scanSuffixCells ([] : List (Nat × Nat)) suffixInvTable = 'b' from by decide]
  · rw [renderBlock_canonical v 'n' [(13, 9)] (by decide) (by decide) (by decide)]
    have h := read_block_append v hv [(13, 9)] (by decide)
    rw [h, show scanSuffixCells [(13, 9)] suffixInvTable = 'n' from by decide]
  · rw [renderBlock_canonical v 's' [(13, 7)] (by decide) (by decide) (by decide)]
    have h := read_block_append v hv [(13, 7)] (by decide)
    rw [h, show scanSuffixCells [(13, 7)] suffixInvTable = 's' from by decide]
  · rw [renderBlock_canonical v 'r' [(13, 8)] (by decide) (by decide) (by decide)]
    have h := read_block_append v hv [(13, 8)] (by decide)
    rw [h, show scanSuffixCells [(13, 8)] suffixInvTable = 'r' from by decide]

lemma blockItem_canonical (v : Nat) (hv : v ≤ 9999999999) (tag : Char)
    (htag : tag ∈ ['b', 'n', 's', 'r']) :
    blockItem (renderBlock (natRepr v ++ String.singleton tag))
      = natRepr v ++ String.singleton tag := by
  rw [blockItem, block_roundtrip v hv tag htag]

lemma configured_lang_cell (L : String)
    (hL : L ∈ ["ar", "zh", "fr", "pt", "es", "eng"]) :
    ∃ rc, lookupCell LANG_CELLS L = some rc ∧
      read_header [rc] = (some L, none) := by
  fin_cases hL
  · exact ⟨(1, 5), by decide, by decide⟩
  · exact ⟨(1, 6), by decide, by decide⟩
  · exact ⟨(1, 7), by decide, by decide⟩
  · exact ⟨(1, 8), by decide, by decide⟩
  · exact ⟨(1, 9), by decide, by decide⟩
  · exact ⟨(1, 10), by decide, by decide⟩

/-- C7 amended: for every list of canonical wire items (decimal value at
most 9999999999 followed by one lowercase tag letter) and every configured
language L, rendering the strip with language L and no data type and
parsing it back recovers exactly (L, no data type, the original wire
text), and the strip has one header block plus one block per item. -/
theorem claim_C7_header_roundtrip (tokens : List String) (L : String)
    (hL : L ∈ ["ar", "zh", "fr", "pt", "es", "eng"])
    (htok : ∀ t ∈ tokens, ∃ v tag, v ≤ 9999999999 ∧ tag ∈ ['b', 'n', 's', 'r'] ∧
      t = natRepr v ++ String.singleton tag) :
    read_strip (create_strip tokens (some L) none)
      = (some L, none, String.intercalate " " tokens) ∧
    (create_strip tokens (some L) none).length = tokens.length + 1 := by
  obtain ⟨rc, hrc, hread⟩ := configured_lang_cell L hL
  have hstrip : create_strip tokens (some L) none
      = [rc] :: tokens.map renderBlock := by
    rw [create_strip]
    simp only [hrc, Option.isSome_some, Bool.true_or, if_pos]
    simp
  constructor
  · rw [hstrip, read_strip]
    simp only [hread]
    simp only [Option.isSome_some, Bool.true_or, if_pos, List.drop_succ_cons,
      List.drop_zero]
    have hmap : (tokens.map renderBlock).map blockItem = tokens := by
      rw [List.map_map]
      conv_rhs => rw [← List.map_id tokens]
      apply List.map_congr_left
      intro t ht
      obtain ⟨v, tag, hv, htag, rfl⟩ := htok t ht
      simp [blockItem_canonical v hv tag htag]
    rw [hmap]
  · rw [hstrip]
    simp

/-- C7 amended witness: Scenario D, the single item 5b with language eng. -/
theorem claim_C7_header_roundtrip_witness :
    read_strip (create_strip ["5b"] (some "eng") none) = (some "eng", none, "5b") ∧
    (create_strip ["5b"] (some "eng") none).length = 2 := by
  have h5 : ("5b" : String) = natRepr 5 ++ String.singleton 'b' := by
    rw [natRepr5]
    rfl
  have h := claim_C7_header_roundtrip ["5b"] "eng" (by decide)
    (by
      intro t ht
      simp only [List.mem_singleton] at ht
      exact ⟨5, 'b', by norm_num, by decide, by rw [ht, h5]⟩)
  obtain ⟨h1, h2⟩ := h
  refine ⟨?_, h2⟩
  rw [h1]
  rfl

/-- C7 counterexample: the wire item 5N (legal wire text by the case-
insensitive grammar of the spec) does not survive the strip round trip:
rendering ["5N"] with language eng parses back to the item 5n, because
create_strip lowercases the suffix letters it scans (snrSNR), so the
original wire sequence is not recovered for every wire-token list. -/
theorem claim_C7_counterexample :
    read_strip (create_strip ["5N"] (some "eng") none) = (some "eng", none, "5n") ∧
    ("5n" : String) ≠ "5N" := by
  constructor
  · have hcs : create_strip ["5N"] (some "eng") none
        = [[(1, 10)], [(15, 8), (13, 9)]] := by decide
    rw [hcs, read_strip]
    have hh : read_header [(1, 10)] = (some "eng", none) := by decide
    simp only [hh]
    simp only [Option.isSome_some, Bool.true_or, if_pos, List.drop_succ_cons,
      List.drop_zero, List.map_cons, List.map_nil]
    have hrb : read_block [(15, 8), (13, 9)] = (5, 'n') := by decide
    rw [blockItem, hrb]
    rw [natRepr5]
    rfl
  · decide

/-- C9: the zero and blank-block edge case: id_to_cells 0 lights no cell,
read_block of an all-background block returns (0, tag letter b), such a
blank data block prints as the wire item 0b, and the data block rendered
for the item 0b is itself blank, so the two are indistinguishable. -/
theorem claim_C9_blank_block :
    id_to_cells 0 = [] ∧ read_block [] = (0, 'b') ∧ blockItem [] = "0b" ∧
    renderBlock "0b" = [] := by
  refine ⟨by decide, by decide, ?_, by decide⟩
  rw [blockItem, show read_block ([] : List (Nat × Nat)) = (0, 'b') from by decide]
  rfl

end NumCode
